import Mathlib

/-!
Verification development for the biplan repository.

The repository ships a Streamlit application (`src/app.py`) whose glue code
(file-upload handling, markdown-to-PDF rendering, the generate-button handler)
is embedded below directly from the source.  The design document additionally
specifies a retrieval core (chunker, vector index, retriever, session state
machine, pipeline coordinator) whose implementation is not part of the
repository's files; those components are modelled from the spec's words, and
each such definition says so in its doc comment.

Text is modelled as `List Char` (Python `str`), numeric vectors as `List ℚ`
(floating point replaced by exact rationals), and fallible operations return
`Except` of a typed error.
-/

namespace Biplan

/-- Modelled from the spec: the error taxonomy of §7 (the core pipeline's
typed errors).  The implementation of the core is not in the repository's
files; the constructors are exactly the names the spec lists. -/
inductive PipelineError where
  | invalidConfig
  | emptyInput
  | dimensionMismatch
  | extractionError
  | unsupportedFormat
  | providerError (msg : List Char)
  | sessionNotReady
  | ingestInProgress
  | embeddingUnavailable
deriving DecidableEq, Repr

/-- Modelled from the spec: a Chunk of §3 — sequence-number id, the covered
substring, and its start/end offsets into the source text.  (The embedding
field lives in the index entry, which pairs each chunk with its vector.) -/
structure Chunk where
  id : Nat
  text : List Char
  startOff : Nat
  endOff : Nat
deriving DecidableEq, Repr

deriving instance DecidableEq for Except

/-- Modelled from the spec (§4.1, the chunker is not in the repository's
files): advance a window of length `sz` with stride `st` over `t`; every
window is a full `sz` characters except the final one, which is truncated to
the remaining text (never padded, never dropped).  The first argument is
recursion fuel: each step advances `pos` by the positive stride, so
`t.length + 1` units always suffice (see `chunkLoop_shape` below), and the
out-of-fuel branch is unreachable from `chunk`.  The word-boundary lookback
the spec calls a best-effort readability heuristic ("not a correctness
requirement") is not modelled. -/
def chunkLoop (t : List Char) (sz st : Nat) : Nat → Nat → Nat → List Chunk
  | 0, _, _ => []
  | fuel + 1, pos, id =>
    if t.length - pos ≤ sz then
      [⟨id, t.drop pos, pos, t.length⟩]
    else
      ⟨id, (t.drop pos).take sz, pos, pos + sz⟩ ::
        chunkLoop t sz st fuel (pos + st) (id + 1)

/-- Modelled from the spec (§4.1): `chunk(text, size, overlap)` fails with
`InvalidConfig` when `size <= 0` or `overlap >= size`, returns an empty
sequence for empty input, and otherwise windows the text with stride
`size - overlap`. -/
def chunk (text : List Char) (size overlap : Int) :
    Except PipelineError (List Chunk) :=
  if size ≤ 0 ∨ overlap ≥ size then .error .invalidConfig
  else if text = [] then .ok []
  else
    .ok (chunkLoop text size.toNat (size - overlap).toNat (text.length + 1) 0 0)

/-- Modelled from the spec (§4.2): dot product of two numeric vectors
(extra coordinates of the longer vector are ignored, as zipping does). -/
def dot : List ℚ → List ℚ → ℚ
  | a :: as, b :: bs => a * b + dot as bs
  | _, _ => 0

/-- Modelled from the spec (§4.2): the squared magnitude of a vector.  The
spec caches magnitudes at build time; the model caches the square, from
which every cosine comparison is decided exactly. -/
def vecNormSq (v : List ℚ) : ℚ := dot v v

/-- Modelled from the spec (§3, §4.2): one indexed chunk, its embedding, and
the cached squared magnitude of that embedding. -/
structure IndexEntry where
  chunk : Chunk
  vec : List ℚ
  normSq : ℚ
deriving DecidableEq, Repr

/-- Modelled from the spec (§3, §4.2): the in-memory index — the ordered
collection of entries plus the common vector dimensionality. -/
structure VectorIndex where
  entries : List IndexEntry
  dim : Nat
deriving DecidableEq, Repr

/-- Modelled from the spec (§4.2): `build` consumes chunk/embedding pairs
atomically; it fails with `DimensionMismatch` if the vectors have
inconsistent lengths and with `EmptyInput` if the sequence is empty. -/
def VectorIndex.build (pairs : List (Chunk × List ℚ)) :
    Except PipelineError VectorIndex :=
  match pairs with
  | [] => .error .emptyInput
  | (_, v₀) :: _ =>
    if pairs.all (fun p => p.2.length == v₀.length) then
      .ok ⟨pairs.map (fun p => ⟨p.1, p.2, vecNormSq p.2⟩), v₀.length⟩
    else .error .dimensionMismatch

/-- Modelled from the spec (§4.2): one search result — the chunk, the dot
product of the query with its stored vector, and the two cached squared
magnitudes.  Its cosine score is `SearchHit.score`. -/
structure SearchHit where
  chunk : Chunk
  dotp : ℚ
  nv : ℚ
  nq : ℚ
deriving DecidableEq, Repr

/-- The cosine-similarity score of a hit, exactly as the spec defines it:
dot product divided by the product of the two magnitudes. -/
noncomputable def SearchHit.score (h : SearchHit) : ℝ :=
  (h.dotp : ℝ) / (Real.sqrt h.nv * Real.sqrt h.nq)

/-- A rational surrogate that orders hits identically to the (irrational)
cosine score: `hitKey h = score h * |score h|` once cast to `ℝ`
(`hitKey_cast` below), and `x ↦ x * |x|` is strictly monotone. -/
def hitKey (h : SearchHit) : ℚ := h.dotp * |h.dotp| / (h.nv * h.nq)

/-- The search ordering: strictly greater cosine score first, ties broken by
ascending chunk id (decided via the exact surrogate `hitKey`). -/
def hitLE (a b : SearchHit) : Prop :=
  hitKey b < hitKey a ∨ (hitKey a = hitKey b ∧ a.chunk.id ≤ b.chunk.id)

instance : DecidableRel hitLE := fun a b => by
  unfold hitLE; infer_instance

instance : IsTotal SearchHit hitLE :=
  ⟨fun a b => by
    unfold hitLE
    rcases lt_trichotomy (hitKey a) (hitKey b) with h | h | h
    · exact .inr (.inl h)
    · rcases le_total a.chunk.id b.chunk.id with hid | hid
      · exact .inl (.inr ⟨h, hid⟩)
      · exact .inr (.inr ⟨h.symm, hid⟩)
    · exact .inl (.inl h)⟩

instance : IsTrans SearchHit hitLE :=
  ⟨fun a b c hab hbc => by
    unfold hitLE at hab hbc ⊢
    rcases hab with h1 | ⟨h1, h1'⟩ <;> rcases hbc with h2 | ⟨h2, h2'⟩
    · exact .inl (h2.trans h1)
    · exact .inl (h2 ▸ h1)
    · exact .inl (by rw [h1]; exact h2)
    · exact .inr ⟨h1.trans h2, h1'.trans h2'⟩⟩

/-- The ordering the spec states for search results, on the real-valued
cosine scores themselves: descending score, ties by ascending chunk id. -/
def scoreOrder (a b : SearchHit) : Prop :=
  b.score < a.score ∨ (a.score = b.score ∧ a.chunk.id ≤ b.chunk.id)

/-- Modelled from the spec (§4.2): `search` scores every entry against the
query (full linear scan), sorts by descending cosine score with ties broken
by ascending chunk id, and returns the first `k` results. -/
def VectorIndex.search (idx : VectorIndex) (q : List ℚ) (k : Nat) :
    List SearchHit :=
  let nq := vecNormSq q
  (List.insertionSort hitLE
      (idx.entries.map fun e => SearchHit.mk e.chunk (dot q e.vec) e.normSq nq)).take k

/-- Modelled from the spec (§3): a document — identifier, opaque payload,
declared format. -/
structure Document where
  id : Nat
  payload : List Char
  format : List Char
deriving DecidableEq, Repr

/-- Modelled from the spec (§6): the text-extractor collaborator. -/
abbrev Extractor := Document → Except PipelineError (List Char)

/-- Modelled from the spec (§6): the embedding-provider collaborator. -/
abbrev Embedder := List Char → Except PipelineError (List ℚ)

/-- Modelled from the spec (§6): the answer-generator collaborator
(question and context in, text out). -/
abbrev Generator := List Char → List Char → Except PipelineError (List Char)

/-- Modelled from the spec (§4.4): the session lifecycle states. -/
inductive SessionState where
  | empty
  | building
  | ready
  | failed
deriving DecidableEq, Repr

/-- Modelled from the spec (§3): the per-document lifecycle record — state,
owned index when present, and the stored diagnostic error. -/
structure Session where
  state : SessionState
  index : Option VectorIndex
  lastError : Option PipelineError
deriving DecidableEq, Repr

/-- Modelled from the spec (§4.4): the initial session — `Empty`, no index,
no error. -/
def Session.new : Session := ⟨.empty, none, none⟩

/-- Modelled from the spec (§4.5, ingest data path): extract → chunk → embed
each chunk in order → build the index; the first failing stage aborts the
whole build with its typed error. -/
def buildPath (extractor : Extractor) (embedder : Embedder)
    (size overlap : Int) (doc : Document) :
    Except PipelineError VectorIndex := do
  let text ← extractor doc
  let chunks ← chunk text size overlap
  let vecs ← chunks.mapM fun c => embedder c.text
  VectorIndex.build (chunks.zip vecs)

/-- Modelled from the spec (§4.4, §4.5): `ingest` is rejected with
`IngestInProgress` while a build is in flight; otherwise any stage failure
transitions the session to `Failed` with the causing error recorded (the
index field is swapped only on success), and success transitions to
`Ready`. -/
def ingest (s : Session) (doc : Document) (extractor : Extractor)
    (embedder : Embedder) (size overlap : Int) :
    Session × Except PipelineError Unit :=
  if s.state = .building then (s, .error .ingestInProgress)
  else
    match buildPath extractor embedder size overlap doc with
    | .ok idx => (⟨.ready, some idx, none⟩, .ok ())
    | .error e => (⟨.failed, s.index, some e⟩, .error e)

/-- Modelled from the spec (§4.3): case- and whitespace-insensitive
normalization used to deduplicate near-identical chunks. -/
def normalizeText (t : List Char) : List Char :=
  (t.map Char.toLower).filter fun c => !c.isWhitespace

/-- Modelled from the spec (§4.3): the `min_score` cutoff, given on the
cosine scale and decided through the exact surrogate (`x ↦ x * |x|` is
monotone, so `m ≤ score` iff `m * |m| ≤ hitKey`). -/
def aboveMin (m : ℚ) (h : SearchHit) : Bool := decide (m * |m| ≤ hitKey h)

/-- Modelled from the spec (§4.3): keep only the first (hence
highest-scoring, the input being sorted descending) instance of each
normalized chunk text. -/
def dedupByText : List SearchHit → List SearchHit
  | [] => []
  | h :: rest =>
    h :: dedupByText (rest.filter fun h2 =>
      normalizeText h2.chunk.text ≠ normalizeText h.chunk.text)
termination_by l => l.length
decreasing_by
  simpa using Nat.lt_succ_of_le (List.length_filter_le _ rest)

/-- Modelled from the spec (§4.3): embed the question (failure or a vector of
unexpected dimensionality is `EmbeddingUnavailable`), search the index, drop
results below `min_score`, deduplicate, and return the rest in descending
score order. -/
def retrieve (idx : VectorIndex) (question : List Char) (embedder : Embedder)
    (k : Nat) (minScore : ℚ) : Except PipelineError (List SearchHit) :=
  match embedder question with
  | .error _ => .error .embeddingUnavailable
  | .ok qv =>
    if qv.length = idx.dim then
      .ok (dedupByText ((idx.search qv k).filter (aboveMin minScore)))
    else .error .embeddingUnavailable

/-- Modelled from the spec (§4.5): concatenate the retrieved chunks in score
order, each labeled with its source offsets. -/
def assembleContext (hits : List SearchHit) : List Char :=
  hits.foldl
    (fun acc h =>
      acc ++ ['['] ++ (Nat.repr h.chunk.startOff).toList ++ [','] ++
        (Nat.repr h.chunk.endOff).toList ++ [']', ' '] ++ h.chunk.text ++ ['\n'])
    []

/-- Modelled from the spec (§4.5): the generated answer together with the
supporting chunk list. -/
structure Answer where
  answer : List Char
  supporting : List Chunk
deriving DecidableEq, Repr

/-- Modelled from the spec (§4.4, §4.5): `ask` requires a `Ready` session
(anything else is `SessionNotReady`), retrieves, invokes the generator with
question and assembled context, and returns the answer with its supporting
chunks.  It never mutates the session: the pair's first component is the
session as the call leaves it. -/
def ask (s : Session) (question : List Char) (embedder : Embedder)
    (generator : Generator) (k : Nat) (minScore : ℚ) :
    Session × Except PipelineError Answer :=
  match s.state, s.index with
  | .ready, some idx =>
    (s, do
      let hits ← retrieve idx question embedder k minScore
      let ans ← generator question (assembleContext hits)
      pure ⟨ans, hits.map (·.chunk)⟩)
  | _, _ => (s, .error .sessionNotReady)

/-- Apply `ask` once per question, threading the session through and
collecting every result in order. -/
def askAll (s : Session) (questions : List (List Char)) (embedder : Embedder)
    (generator : Generator) (k : Nat) (minScore : ℚ) :
    Session × List (Except PipelineError Answer) :=
  match questions with
  | [] => (s, [])
  | q :: rest =>
    let r := ask s q embedder generator k minScore
    let t := askAll r.1 rest embedder generator k minScore
    (t.1, r.2 :: t.2)

/-! ### The application glue of `src/app.py`, embedded from the source -/

/-- The content of an uploaded file, as the three parsers of
`extract_text_from_file` see it: a PDF is a list of pages (each page's
`extract_text()` result), a DOCX a list of paragraph texts, and anything
else raw bytes decoded as text. -/
inductive FileContent where
  | pdf (pages : List (List Char))
  | docx (paragraphs : List (List Char))
  | raw (data : List Char)
deriving DecidableEq, Repr

/-- An uploaded file: its name and its content. -/
structure UploadedFile where
  name : List Char
  content : FileContent
deriving DecidableEq, Repr

/-- `app.py:49` — `uploaded_file.name.split('.')[-1].lower()`: the text after
the last `'.'` of the name (the whole name when it has none), lowercased. -/
def fileExtension (name : List Char) : List Char :=
  ((name.reverse.takeWhile fun c => c ≠ '.').reverse).map Char.toLower

/-- The observable outcome of `extract_text_from_file` (`app.py:47-68`):
either the extracted text; or `unsupported`, which stands for the `else`
branch that calls `st.error("Unsupported file format. ...")` and returns
`None`; or `raised`, the uncaught exception a parser throws when the file's
bytes do not match its extension. -/
inductive ExtractResult where
  | extracted (text : List Char)
  | unsupported
  | raised
deriving DecidableEq, Repr

/-- `app.py:47-68` — dispatch on the lowercased extension: `pdf` concatenates
every page's text each followed by `"\n"`, `docx` joins the paragraph texts
with `"\n"`, `txt` returns the decoded bytes, and any other extension shows
an error and returns `None` (here `unsupported`). -/
def extract_text_from_file (f : UploadedFile) : ExtractResult :=
  if fileExtension f.name = "pdf".toList then
    match f.content with
    | .pdf pages => .extracted (pages.foldl (fun acc p => acc ++ p ++ ['\n']) [])
    | _ => .raised
  else if fileExtension f.name = "docx".toList then
    match f.content with
    | .docx paragraphs => .extracted (List.intercalate ['\n'] paragraphs)
    | _ => .raised
  else if fileExtension f.name = "txt".toList then
    match f.content with
    | .raw data => .extracted data
    | _ => .raised
  else
    .unsupported

/-! #### `markdown_to_pdf` line handling (`app.py:261-301`) -/

/-- Python's `line.strip()`: leading and trailing whitespace removed. -/
def pyStrip (l : List Char) : List Char :=
  ((l.dropWhile Char.isWhitespace).reverse.dropWhile Char.isWhitespace).reverse

/-- Python's `sub in s`: `pat` occurs contiguously somewhere in `l`. -/
def hasSub (pat : List Char) : List Char → Bool
  | [] => pat.isEmpty
  | c :: rest => pat.isPrefixOf (c :: rest) || hasSub pat rest

/-- Python's `s.replace('**', rep)` specialized to the pattern `'**'`:
replace every non-overlapping occurrence left to right. -/
def replaceStarStar (rep : List Char) : List Char → List Char
  | [] => []
  | [c] => [c]
  | c :: d :: rest =>
    if c = '*' ∧ d = '*' then rep ++ replaceStarStar rep rest
    else c :: replaceStarStar rep (d :: rest)

/-- What `markdown_to_pdf` appends to the story for one markdown line. -/
inductive LineOut where
  | blank
  | heading1 (text : List Char)
  | heading2 (text : List Char)
  | heading3 (text : List Char)
  | bullet (text : List Char)
  | numbered (text : List Char)
  | body (text : List Char)
deriving DecidableEq, Repr

/-- `app.py:264-301` — the per-line dispatch of `markdown_to_pdf`: strip the
line; blank lines become spacers; `#`/`##`/`###`/`####` headers keep their
text verbatim (`####` shares the level-3 style); bullets get a `•` prefix;
numbered lines pass through; otherwise a line containing `'**'` gets
`.replace('**', '<b>').replace('**', '</b>')` applied and every remaining
line passes through as a body paragraph. -/
def processLine (raw : List Char) : LineOut :=
  let line := pyStrip raw
  if line = [] then .blank
  else if "# ".toList.isPrefixOf line then .heading1 (pyStrip (line.drop 2))
  else if "## ".toList.isPrefixOf line then .heading2 (pyStrip (line.drop 3))
  else if "### ".toList.isPrefixOf line then .heading3 (pyStrip (line.drop 4))
  else if "#### ".toList.isPrefixOf line then .heading3 (pyStrip (line.drop 5))
  else if "- ".toList.isPrefixOf line ∨ "* ".toList.isPrefixOf line then
    .bullet ('•' :: ' ' :: pyStrip (line.drop 2))
  else if 2 < line.length ∧ (line.headD ' ').isDigit ∧
      ((line.drop 1).take 2 = ". ".toList ∨ (line.drop 1).take 2 = ") ".toList) then
    .numbered line
  else if hasSub "**".toList line then
    .body (replaceStarStar "</b>".toList (replaceStarStar "<b>".toList line))
  else
    .body line

/-! #### The generate-button handler (`app.py:385-454`) -/

/-- One visible Streamlit effect of the handler. -/
inductive Effect where
  | errorMsg (text : List Char)
  | successMsg (text : List Char)
  | planShown (markdown : List Char)
  | exceptionShown
deriving DecidableEq, Repr

/-- What one press of the generate button does: the UI effects in order, and
the business description actually passed to `generate_business_plan` when it
is invoked (`none` when it never is). -/
structure MainResult where
  effects : List Effect
  genInput : Option (List Char)
deriving DecidableEq, Repr

/-- `app.py:404-453` — the `try` block: generate the plan, save and render it;
on an exception show the error and the traceback. -/
def runGeneration (bd : List Char) (pre : List Effect)
    (gen : List Char → Except (List Char) (List Char)) : MainResult :=
  match gen bd with
  | .ok md => ⟨pre ++ [.successMsg "Business plan generated successfully!".toList,
      .planShown md], some bd⟩
  | .error e => ⟨pre ++ [.errorMsg ("An error occurred: ".toList ++ e),
      .exceptionShown], some bd⟩

/-- `app.py:385-454` — the body of the `if st.button(...)` block.  An empty
`apiKey` or `manualInput` is Python-falsy; `business_description` is falsy
when it is `None` or the empty string.  With a file uploaded the manual text
area is never consulted; an extraction that returns a falsy string reaches
neither the success message nor the generation call (`if business_description:`
twice), producing no effect at all. -/
def pressGenerate (apiKey : List Char) (uploaded : Option UploadedFile)
    (manualInput : List Char)
    (gen : List Char → Except (List Char) (List Char)) : MainResult :=
  if apiKey = [] then
    ⟨[.errorMsg "Please enter your OpenAI API key in the sidebar.".toList], none⟩
  else
    match uploaded with
    | some f =>
      match extract_text_from_file f with
      | .extracted t =>
        if t ≠ [] then
          runGeneration t
            [.successMsg ("Successfully extracted text from ".toList ++ f.name)] gen
        else
          ⟨[], none⟩
      | .unsupported =>
        ⟨[.errorMsg "Unsupported file format. Please upload PDF, DOCX, or TXT files.".toList],
          none⟩
      | .raised => ⟨[.exceptionShown], none⟩
    | none =>
      if manualInput ≠ [] then
        runGeneration manualInput [] gen
      else
        ⟨[.errorMsg "Please upload a file or enter a business description.".toList], none⟩

/-- A three-chunk batch for exercising `search` on a concretely built
index. -/
def searchWitnessPairs : List (Chunk × List ℚ) :=
  [(⟨0, ['a'], 0, 1⟩, [1, 0]), (⟨1, ['b'], 1, 2⟩, [0, 1]),
    (⟨2, ['c'], 2, 3⟩, [1, 0])]

/-- The index `VectorIndex.build` produces from `searchWitnessPairs`. -/
def searchWitnessIndex : VectorIndex :=
  ⟨[⟨⟨0, ['a'], 0, 1⟩, [1, 0], 1⟩, ⟨⟨1, ['b'], 1, 2⟩, [0, 1], 1⟩,
    ⟨⟨2, ['c'], 2, 3⟩, [1, 0], 1⟩], 2⟩

/-! ## Theorems -/

/-- Folding the page-concatenation of the `pdf` branch over `n` pages with no
extractable text appends `n` newlines. -/
theorem foldl_blank_pages (n : Nat) (acc : List Char) :
    (List.replicate n ([] : List Char)).foldl (fun acc p => acc ++ p ++ ['\n']) acc =
      acc ++ List.replicate n '\n' := by
  induction n generalizing acc with
  | zero => simp
  | succ m ih =>
    rw [List.replicate_succ, List.foldl_cons, ih]
    simp [List.replicate_succ]

/-- C1 (as stated) is false on the code: a PDF whose one page has no
extractable text is returned as the one-character string `"\n"` — each page
contributes `extract_text() + "\n"` — not as the empty string. -/
theorem extract_pdf_blank_page_newline :
    extract_text_from_file ⟨"scan.pdf".toList, .pdf [[]]⟩ = .extracted ['\n'] ∧
      (['\n'] : List Char) ≠ [] :=
  ⟨by decide, by decide⟩

/-- C1 amended: the extractor tolerates files with no extractable text by
returning a text (empty for `txt` and `docx`, one newline per page for
`pdf`), never an error; a file whose extension is unsupported makes it show
an error message and return `None` (`ExtractResult.unsupported`), not a
typed `UnsupportedFormat` error. -/
theorem extract_tolerates_blank_and_unsupported (name : List Char) (n : Nat)
    (content : FileContent) :
    (fileExtension name = "pdf".toList →
      extract_text_from_file ⟨name, .pdf (List.replicate n [])⟩ =
        .extracted (List.replicate n '\n')) ∧
    (fileExtension name = "docx".toList →
      extract_text_from_file ⟨name, .docx []⟩ = .extracted []) ∧
    (fileExtension name = "txt".toList →
      extract_text_from_file ⟨name, .raw []⟩ = .extracted []) ∧
    (fileExtension name ≠ "pdf".toList → fileExtension name ≠ "docx".toList →
      fileExtension name ≠ "txt".toList →
      extract_text_from_file ⟨name, content⟩ = .unsupported) := by
  refine ⟨fun h => ?_, fun h => ?_, fun h => ?_, fun h1 h2 h3 => ?_⟩
  · simp only [extract_text_from_file, h, if_pos]
    exact congrArg ExtractResult.extracted (foldl_blank_pages n [])
  · simp [extract_text_from_file, h, List.intercalate]
  · simp [extract_text_from_file, h]
  · unfold extract_text_from_file
    rw [if_neg h1, if_neg h2, if_neg h3]

/-- C5: `chunk` fails with the typed error `InvalidConfig` exactly when
`size ≤ 0` or `overlap ≥ size`, never fails otherwise, and for every valid
configuration maps the empty text to the empty sequence, not an error. -/
theorem chunk_invalidConfig_iff (text : List Char) (size overlap : Int) :
    (chunk text size overlap = .error .invalidConfig ↔ size ≤ 0 ∨ overlap ≥ size) ∧
    (∀ e, chunk text size overlap = .error e → e = .invalidConfig) ∧
    (¬(size ≤ 0 ∨ overlap ≥ size) → chunk [] size overlap = .ok []) := by
  refine ⟨?_, ?_, fun h => ?_⟩ <;> unfold chunk <;> split_ifs <;> simp_all

/-- C7: a session on which no ingest has ever been performed is still
`Empty`, and every `ask` against it is rejected with the typed error
`SessionNotReady` — both for any session in the `Empty` state and along any
sequence of `ask` calls starting from the freshly created session. -/
theorem ask_never_ingested_rejected (s : Session) (hs : s.state = .empty)
    (question : List Char) (questions : List (List Char)) (embedder : Embedder)
    (generator : Generator) (k : Nat) (minScore : ℚ) :
    ask s question embedder generator k minScore = (s, .error .sessionNotReady) ∧
    (askAll Session.new questions embedder generator k minScore).1 = Session.new ∧
    (askAll Session.new questions embedder generator k minScore).2 =
      questions.map fun _ => .error .sessionNotReady := by
  have key : ∀ (s' : Session), s'.state = .empty → ∀ q,
      ask s' q embedder generator k minScore = (s', .error .sessionNotReady) := by
    intro s' hs' q
    obtain ⟨st, ix, le⟩ := s'
    simp only at hs'
    subst hs'
    rfl
  have all : ∀ qs, askAll Session.new qs embedder generator k minScore =
      (Session.new, qs.map fun _ => .error .sessionNotReady) := by
    intro qs
    induction qs with
    | nil => rfl
    | cons q rest ih =>
      show ((askAll Session.new rest embedder generator k minScore).1,
          Except.error .sessionNotReady ::
            (askAll Session.new rest embedder generator k minScore).2) =
        (Session.new, (q :: rest).map fun _ => .error .sessionNotReady)
      rw [ih]
      rfl
  exact ⟨key s hs question, by rw [all questions], by rw [all questions]⟩

/-- C7 witness: the fresh session rejects a concrete question. -/
theorem ask_never_ingested_rejected_witness :
    ask Session.new "what?".toList (fun _ => .ok [1]) (fun _ _ => .ok []) 3 0 =
      (Session.new, .error .sessionNotReady) ∧
    (askAll Session.new ["a".toList] (fun _ => .ok [1]) (fun _ _ => .ok []) 3 0).1 =
      Session.new ∧
    (askAll Session.new ["a".toList] (fun _ => .ok [1]) (fun _ _ => .ok []) 3 0).2 =
      ["a".toList].map fun _ => .error .sessionNotReady :=
  ask_never_ingested_rejected Session.new rfl "what?".toList ["a".toList]
    (fun _ => .ok [1]) (fun _ _ => .ok []) 3 0

/-- C9: with a file uploaded, one press of the generate button never reads
the manual text area (the outcome is identical whatever was typed there),
and when the extraction yields a non-empty text, that text — not the manual
input — is the business description passed to the generator. -/
theorem pressGenerate_uses_extracted_text (apiKey : List Char)
    (f : UploadedFile) (manual₁ manual₂ t : List Char)
    (gen : List Char → Except (List Char) (List Char))
    (hk : apiKey ≠ []) (he : extract_text_from_file f = .extracted t)
    (ht : t ≠ []) :
    pressGenerate apiKey (some f) manual₁ gen =
      pressGenerate apiKey (some f) manual₂ gen ∧
    (pressGenerate apiKey (some f) manual₁ gen).genInput = some t := by
  refine ⟨rfl, ?_⟩
  cases hg : gen t <;> simp [pressGenerate, hk, he, ht, runGeneration, hg]

/-- C9 witness: a concrete press with both a file and manual text. -/
theorem pressGenerate_uses_extracted_text_witness :
    pressGenerate "key".toList (some ⟨"biz.txt".toList, .raw "A plan".toList⟩)
        "typed text".toList (fun _ => .ok "md".toList) =
      pressGenerate "key".toList (some ⟨"biz.txt".toList, .raw "A plan".toList⟩)
        "other".toList (fun _ => .ok "md".toList) ∧
    (pressGenerate "key".toList (some ⟨"biz.txt".toList, .raw "A plan".toList⟩)
        "typed text".toList (fun _ => .ok "md".toList)).genInput =
      some "A plan".toList :=
  pressGenerate_uses_extracted_text "key".toList
    ⟨"biz.txt".toList, .raw "A plan".toList⟩ "typed text".toList "other".toList
    "A plan".toList (fun _ => .ok "md".toList) (by decide) (by decide) (by decide)

/-- C10: with an API key present and an uploaded file whose extraction
returns the empty string, the handler stops silently: no effect of any kind
(no error, no missing-description message, no success banner) and no
generation call. -/
theorem pressGenerate_silent_on_empty_extraction (apiKey : List Char)
    (f : UploadedFile) (manual : List Char)
    (gen : List Char → Except (List Char) (List Char))
    (hk : apiKey ≠ []) (he : extract_text_from_file f = .extracted []) :
    pressGenerate apiKey (some f) manual gen = ⟨[], none⟩ := by
  simp [pressGenerate, hk, he]

/-- Shape of the window loop: started anywhere strictly inside the text with
a positive stride no longer than the window, it emits a non-empty chunk list
whose every window but the last is exactly `sz` characters, the last having
between 1 and `sz`. -/
theorem chunkLoop_shape (t : List Char) (sz st : Nat) (hst : 0 < st)
    (hstsz : st ≤ sz) :
    ∀ fuel pos id, t.length - pos < fuel → pos < t.length →
      ∃ front lastC, chunkLoop t sz st fuel pos id = front ++ [lastC] ∧
        (∀ c ∈ front, c.text.length = sz) ∧
        1 ≤ lastC.text.length ∧ lastC.text.length ≤ sz := by
  intro fuel
  induction fuel with
  | zero => omega
  | succ m ih =>
    intro pos id hfuel hpos
    by_cases hbase : t.length - pos ≤ sz
    · refine ⟨[], ⟨id, t.drop pos, pos, t.length⟩, ?_, by simp, ?_, ?_⟩
      · simp [chunkLoop, hbase]
      · simp only [List.length_drop]
        omega
      · simp only [List.length_drop]
        omega
    · obtain ⟨front, lastC, heq, hfront, hlast1, hlast2⟩ :=
        ih (pos + st) (id + 1) (by omega) (by omega)
      refine ⟨⟨id, (t.drop pos).take sz, pos, pos + sz⟩ :: front, lastC, ?_, ?_,
        hlast1, hlast2⟩
      · simp [chunkLoop, hbase, heq]
      · intro c hc
        rcases List.mem_cons.mp hc with rfl | hc
        · simp only [List.length_take, List.length_drop]
          omega
        · exact hfront c hc

/-- C4: for every non-empty text and every valid `(size, overlap)`
configuration, every chunk produced by `chunk` except the last has length
exactly `size`, and the last has length between 1 and `size` — zero-length
chunks never occur. -/
theorem chunk_window_lengths (text : List Char) (size overlap : Int)
    (cs : List Chunk) (htext : text ≠ []) (hsize : 0 < size)
    (hov0 : 0 ≤ overlap) (hov : overlap < size)
    (hok : chunk text size overlap = .ok cs) :
    ∃ front lastC, cs = front ++ [lastC] ∧
      (∀ c ∈ front, c.text.length = size.toNat) ∧
      1 ≤ lastC.text.length ∧ lastC.text.length ≤ size.toNat := by
  have hguard : ¬(size ≤ 0 ∨ overlap ≥ size) := by omega
  rw [chunk, if_neg hguard, if_neg htext] at hok
  obtain ⟨cs', rfl⟩ : ∃ cs', cs = chunkLoop text size.toNat
      (size - overlap).toNat (text.length + 1) 0 0 :=
    ⟨cs, by injection hok with h; exact h.symm⟩
  have := chunkLoop_shape text size.toNat ((size - overlap).toNat)
    (by omega) (by omega) (text.length + 1) 0 0 (by omega)
    (List.length_pos.mpr htext)
  simpa using this

/-- C4 witness: `chunk "abcde" 3 1` yields a full window and a final window
of two characters. -/
theorem chunk_window_lengths_witness :
    ∃ front lastC,
      ([⟨0, "abc".toList, 0, 3⟩, ⟨1, "cde".toList, 2, 5⟩] : List Chunk) =
        front ++ [lastC] ∧
      (∀ c ∈ front, c.text.length = (3 : Int).toNat) ∧
      1 ≤ lastC.text.length ∧ lastC.text.length ≤ (3 : Int).toNat :=
  chunk_window_lengths "abcde".toList 3 1 _ (by decide) (by decide) (by decide)
    (by decide) (by decide)

/-- The head-anchored consistency check of `build` agrees with pairwise
dimension consistency. -/
theorem all_head_length_iff (c : Chunk) (v₀ : List ℚ)
    (rest : List (Chunk × List ℚ)) :
    (((c, v₀) :: rest).all fun p => p.2.length == v₀.length) = true ↔
      ∀ p ∈ (c, v₀) :: rest, ∀ q ∈ (c, v₀) :: rest, p.2.length = q.2.length := by
  simp only [List.all_eq_true, beq_iff_eq]
  constructor
  · intro h p hp q hq
    rw [h p hp, h q hq]
  · intro h p hp
    exact h p hp (c, v₀) (List.mem_cons_self _ _)

/-- C6: `VectorIndex.build` fails with the typed error `EmptyInput` exactly
on the empty sequence, fails with the typed error `DimensionMismatch`
exactly when the vectors do not all share one length, and succeeds in every
other case. -/
theorem build_error_conditions (pairs : List (Chunk × List ℚ)) :
    (VectorIndex.build pairs = .error .emptyInput ↔ pairs = []) ∧
    (VectorIndex.build pairs = .error .dimensionMismatch ↔
      pairs ≠ [] ∧ ¬∀ p ∈ pairs, ∀ q ∈ pairs, p.2.length = q.2.length) ∧
    ((pairs ≠ [] ∧ ∀ p ∈ pairs, ∀ q ∈ pairs, p.2.length = q.2.length) →
      ∃ idx, VectorIndex.build pairs = .ok idx) := by
  match pairs with
  | [] => simp [VectorIndex.build]
  | (c, v₀) :: rest =>
    by_cases h : (((c, v₀) :: rest).all fun p => p.2.length == v₀.length) = true
    · have hc := (all_head_length_iff c v₀ rest).mp h
      have hbuild : VectorIndex.build ((c, v₀) :: rest) =
          .ok ⟨((c, v₀) :: rest).map fun p => ⟨p.1, p.2, vecNormSq p.2⟩,
            v₀.length⟩ := by
        simp [VectorIndex.build, h]
      refine ⟨by simp [hbuild], ?_, fun _ => ⟨_, hbuild⟩⟩
      rw [hbuild]
      exact ⟨by simp, fun hh => absurd hc hh.2⟩
    · have hc : ¬∀ p ∈ (c, v₀) :: rest, ∀ q ∈ (c, v₀) :: rest,
          p.2.length = q.2.length :=
        fun hh => h ((all_head_length_iff c v₀ rest).mpr hh)
      have hbuild : VectorIndex.build ((c, v₀) :: rest) =
          .error .dimensionMismatch := by
        simp [VectorIndex.build, h]
      refine ⟨by simp [hbuild], ?_, fun hh => absurd hh.2 hc⟩
      rw [hbuild]
      exact ⟨fun _ => ⟨List.cons_ne_nil _ _, hc⟩, fun _ => rfl⟩

/-- C2: a failing `ingest` is never swallowed — it returns its typed error,
and either it was the `IngestInProgress` rejection (session untouched) or
the session has transitioned to `Failed` with `last_error` recording exactly
that error; and an `ask` never changes the session, so an `ask` failure
leaves the prior state intact.  A stage failure inside the build path
(extraction, chunking, embedding, index build) is exactly an `ingest`
returning that stage's error, by construction of `buildPath`. -/
theorem pipeline_failure_not_swallowed (s s' : Session) (doc : Document)
    (extractor : Extractor) (embedder : Embedder) (generator : Generator)
    (size overlap : Int) (question : List Char) (k : Nat) (minScore : ℚ)
    (e : PipelineError)
    (h : (ingest s doc extractor embedder size overlap).2 = .error e) :
    (((ingest s doc extractor embedder size overlap).1 = s ∧
        e = .ingestInProgress) ∨
      ((ingest s doc extractor embedder size overlap).1.state = .failed ∧
        (ingest s doc extractor embedder size overlap).1.lastError = some e)) ∧
    (ask s' question embedder generator k minScore).1 = s' := by
  constructor
  · unfold ingest at h ⊢
    by_cases hb : s.state = .building
    · rw [if_pos hb] at h ⊢
      exact .inl ⟨rfl, by injection h with h2; exact h2.symm⟩
    · rw [if_neg hb] at h ⊢
      match hp : buildPath extractor embedder size overlap doc with
      | .ok idx => rw [hp] at h; exact absurd h (by simp)
      | .error e' =>
        rw [hp] at h
        have : e' = e := by injection h
        subst this
        exact .inr ⟨rfl, rfl⟩
  · unfold ask
    obtain ⟨st, ix, le⟩ := s'
    cases st <;> cases ix <;> rfl

/-- C2 witness: an extractor failure on a fresh session. -/
theorem pipeline_failure_not_swallowed_witness :
    (((ingest Session.new ⟨0, [], []⟩ (fun _ => .error .extractionError)
          (fun _ => .ok [1]) 3 1).1 = Session.new ∧
        PipelineError.extractionError = .ingestInProgress) ∨
      ((ingest Session.new ⟨0, [], []⟩ (fun _ => .error .extractionError)
          (fun _ => .ok [1]) 3 1).1.state = .failed ∧
        (ingest Session.new ⟨0, [], []⟩ (fun _ => .error .extractionError)
          (fun _ => .ok [1]) 3 1).1.lastError = some .extractionError)) ∧
    (ask Session.new "q".toList (fun _ => .ok [1]) (fun _ _ => .ok []) 3 0).1 =
      Session.new :=
  pipeline_failure_not_swallowed Session.new Session.new ⟨0, [], []⟩
    (fun _ => .error .extractionError) (fun _ => .ok [1]) (fun _ _ => .ok [])
    3 1 "q".toList 3 0 .extractionError (by decide)

/-- C10 witness: an empty `.txt` upload with a key present is a no-op even
though manual text was typed. -/
theorem pressGenerate_silent_on_empty_extraction_witness :
    pressGenerate "key".toList (some ⟨"empty.txt".toList, .raw []⟩)
        "typed text".toList (fun _ => .ok "md".toList) = ⟨[], none⟩ :=
  pressGenerate_silent_on_empty_extraction "key".toList
    ⟨"empty.txt".toList, .raw []⟩ "typed text".toList
    (fun _ => .ok "md".toList) (by decide) (by decide)
/-- One-step unfolding of `hasSub` on a cons cell. -/
theorem hasSub_cons (pat : List Char) (c : Char) (l : List Char) :
    hasSub pat (c :: l) = (pat.isPrefixOf (c :: l) || hasSub pat l) := rfl

/-- One-step unfolding of `List.isPrefixOf` on two cons cells. -/
theorem isPrefixOf_cons2 (a b : Char) (as bs : List Char) :
    List.isPrefixOf (a :: as) (b :: bs) = (a == b && as.isPrefixOf bs) := rfl

/-- The replacement consumes a leading `'**'` marker. -/
theorem replaceSS_marker (rep rest : List Char) :
    replaceStarStar rep ('*' :: '*' :: rest) = rep ++ replaceStarStar rep rest := by
  simp [replaceStarStar]

/-- When the head cannot start a `'**'` marker the replacement keeps it. -/
theorem replaceSS_cons_of_ne (rep : List Char) (d : Char) (rest : List Char)
    (hd : d ≠ '*') :
    replaceStarStar rep (d :: rest) = d :: replaceStarStar rep rest := by
  match rest with
  | [] => rfl
  | e :: rest' =>
    simp only [replaceStarStar]
    rw [if_neg fun h => hd h.1]

/-- Replacing `'**'` by `"<b>"` leaves no `'**'` occurrence behind. -/
theorem replaceSS_no_star2 :
    ∀ l, hasSub ['*', '*'] (replaceStarStar ['<', 'b', '>'] l) = false
  | [] => by simp [replaceStarStar, hasSub]
  | [c] => by
    simp only [replaceStarStar, hasSub, hasSub_cons, isPrefixOf_cons2]
    simp [List.isPrefixOf]
  | c :: d :: rest => by
    by_cases hcd : c = '*' ∧ d = '*'
    · obtain ⟨rfl, rfl⟩ := hcd
      rw [replaceSS_marker]
      simp only [List.cons_append, List.nil_append, hasSub_cons,
        isPrefixOf_cons2, Bool.or_eq_false_iff, Bool.and_eq_false_iff]
      refine ⟨?_, ?_, ?_, replaceSS_no_star2 rest⟩ <;> left <;> decide
    · simp only [replaceStarStar, if_neg hcd]
      rw [hasSub_cons, Bool.or_eq_false_iff]
      refine ⟨?_, replaceSS_no_star2 (d :: rest)⟩
      by_cases hc : c = '*'
      · subst hc
        have hd : d ≠ '*' := fun hd => hcd ⟨rfl, hd⟩
        rw [replaceSS_cons_of_ne _ _ _ hd, isPrefixOf_cons2,
          Bool.and_eq_false_iff]
        right
        rw [isPrefixOf_cons2, Bool.and_eq_false_iff]
        exact .inl (by simpa using Ne.symm hd)
      · rw [isPrefixOf_cons2, Bool.and_eq_false_iff]
        exact .inl (by simpa using Ne.symm hc)

/-- Replacing `'**'` in a text with no `'**'` changes nothing — in
particular the second `replace` of `markdown_to_pdf` is inert on the output
of the first. -/
theorem replaceSS_id (rep : List Char) :
    ∀ l, hasSub ['*', '*'] l = false → replaceStarStar rep l = l
  | [], _ => rfl
  | [_], _ => rfl
  | c :: d :: rest, hsub => by
    rw [hasSub_cons, Bool.or_eq_false_iff] at hsub
    have hcd : ¬(c = '*' ∧ d = '*') := by
      rintro ⟨rfl, rfl⟩
      simp [isPrefixOf_cons2, List.isPrefixOf] at hsub
    simp only [replaceStarStar, if_neg hcd]
    rw [replaceSS_id rep (d :: rest) hsub.2]

/-- A text containing `'**'` contains `"<b>"` after the replacement. -/
theorem replaceSS_has_open :
    ∀ l, hasSub ['*', '*'] l = true →
      hasSub ['<', 'b', '>'] (replaceStarStar ['<', 'b', '>'] l) = true
  | [], h => by simp [hasSub] at h
  | [c], h => by
    rw [hasSub_cons, isPrefixOf_cons2] at h
    simp [hasSub, List.isPrefixOf] at h
  | c :: d :: rest, h => by
    by_cases hcd : c = '*' ∧ d = '*'
    · obtain ⟨rfl, rfl⟩ := hcd
      rw [replaceSS_marker]
      simp only [List.cons_append, List.nil_append, hasSub_cons,
        isPrefixOf_cons2, Bool.or_eq_true]
      left
      simp [List.isPrefixOf]
    · have h2 : hasSub ['*', '*'] (d :: rest) = true := by
        rw [hasSub_cons, Bool.or_eq_true] at h
        rcases h with hpre | hrec
        · rw [isPrefixOf_cons2, Bool.and_eq_true, isPrefixOf_cons2,
            Bool.and_eq_true] at hpre
          have hc : '*' = c := by simpa using hpre.1
          have hd : '*' = d := by simpa using hpre.2.1
          exact absurd ⟨hc.symm, hd.symm⟩ hcd
        · exact hrec
      simp only [replaceStarStar, if_neg hcd]
      rw [hasSub_cons, Bool.or_eq_true]
      exact .inr (replaceSS_has_open (d :: rest) h2)

/-- A pattern with no `'*'` and no `'<'` is a prefix of the replaced text
exactly when it was a prefix of the original. -/
theorem prefix_replace :
    ∀ (l p : List Char), '*' ∉ p → '<' ∉ p →
      List.isPrefixOf p (replaceStarStar ['<', 'b', '>'] l) =
        List.isPrefixOf p l
  | _, [], _, _ => by simp [List.isPrefixOf]
  | [], _ :: _, _, _ => by simp [replaceStarStar]
  | [_], _ :: _, _, _ => rfl
  | c :: d :: rest, a :: p', hstar, hlt => by
    have ha1 : (a == '<') = false := by
      simp only [beq_eq_false_iff_ne, ne_eq]
      intro h
      subst h
      exact hlt (List.mem_cons_self _ _)
    have ha2 : (a == '*') = false := by
      simp only [beq_eq_false_iff_ne, ne_eq]
      intro h
      subst h
      exact hstar (List.mem_cons_self _ _)
    by_cases hcd : c = '*' ∧ d = '*'
    · obtain ⟨rfl, rfl⟩ := hcd
      rw [replaceSS_marker]
      simp only [List.cons_append, List.nil_append, isPrefixOf_cons2, ha1,
        ha2, Bool.false_and]
    · simp only [replaceStarStar, if_neg hcd, isPrefixOf_cons2]
      rw [prefix_replace (d :: rest) p'
        (fun hm => hstar (List.mem_cons_of_mem _ hm))
        (fun hm => hlt (List.mem_cons_of_mem _ hm))]

/-- The replacement introduces no `"</b>"`: the output contains it only if
the input already did. -/
theorem replaceSS_no_close :
    ∀ l, hasSub ['<', '/', 'b', '>'] l = false →
      hasSub ['<', '/', 'b', '>'] (replaceStarStar ['<', 'b', '>'] l) = false
  | [], _ => by simp [replaceStarStar, hasSub]
  | [c], h => by
    simpa only [replaceStarStar] using h
  | c :: d :: rest, h => by
    rw [hasSub_cons, Bool.or_eq_false_iff] at h
    obtain ⟨hpre, hsub⟩ := h
    by_cases hcd : c = '*' ∧ d = '*'
    · obtain ⟨rfl, rfl⟩ := hcd
      have hrest : hasSub ['<', '/', 'b', '>'] rest = false := by
        rw [hasSub_cons, Bool.or_eq_false_iff] at hsub
        exact hsub.2
      rw [replaceSS_marker]
      simp only [List.cons_append, List.nil_append]
      have p1 : List.isPrefixOf ['<', '/', 'b', '>']
          ('<' :: 'b' :: '>' :: replaceStarStar ['<', 'b', '>'] rest) = false := by
        rw [isPrefixOf_cons2, isPrefixOf_cons2,
          show (('/' : Char) == 'b') = false from by decide, Bool.false_and,
          Bool.and_false]
      have p2 : List.isPrefixOf ['<', '/', 'b', '>']
          ('b' :: '>' :: replaceStarStar ['<', 'b', '>'] rest) = false := by
        rw [isPrefixOf_cons2, show (('<' : Char) == 'b') = false from by decide,
          Bool.false_and]
      have p3 : List.isPrefixOf ['<', '/', 'b', '>']
          ('>' :: replaceStarStar ['<', 'b', '>'] rest) = false := by
        rw [isPrefixOf_cons2, show (('<' : Char) == '>') = false from by decide,
          Bool.false_and]
      rw [hasSub_cons, hasSub_cons, hasSub_cons, p1, p2, p3, Bool.false_or,
        Bool.false_or, Bool.false_or]
      exact replaceSS_no_close rest hrest
    · simp only [replaceStarStar, if_neg hcd]
      rw [hasSub_cons, Bool.or_eq_false_iff]
      refine ⟨?_, replaceSS_no_close (d :: rest) hsub⟩
      rw [isPrefixOf_cons2,
        prefix_replace (d :: rest) ['/', 'b', '>'] (by decide) (by decide)]
      rw [isPrefixOf_cons2] at hpre
      exact hpre

/-- C8 (as stated) is false on the code: the heading branches of
`markdown_to_pdf` run before the bold branch, so a heading line containing
`'**'` is emitted verbatim — its paragraph text keeps the `'**'` markers and
contains no `"<b>"` at all. -/
theorem processLine_heading_keeps_markers :
    processLine "# **Title**".toList = .heading1 "**Title**".toList ∧
    hasSub "**".toList "# **Title**".toList = true ∧
    hasSub "<b>".toList "**Title**".toList = false :=
  ⟨by decide, by decide, by decide⟩

/-- C8 amended: for every markdown line that reaches the bold branch (its
stripped text is non-empty, no heading, bullet or numbered line, and
contains `'**'`), the first `replace` consumes every `'**'` in one pass, so
the second `replace` with `"</b>"` never applies: the emitted body text is
exactly the line with each `'**'` turned into `"<b>"`, it contains `"<b>"`,
no `'**'`, and — provided the line itself contains no literal `"</b>"` — no
`"</b>"` either (bold spans are never closed). -/
theorem processLine_bold_never_closed (raw t : List Char)
    (hbody : processLine raw = .body t)
    (hstars : hasSub "**".toList (pyStrip raw) = true)
    (hnoclose : hasSub "</b>".toList (pyStrip raw) = false) :
    t = replaceStarStar "<b>".toList (pyStrip raw) ∧
    replaceStarStar "</b>".toList (replaceStarStar "<b>".toList (pyStrip raw)) =
      replaceStarStar "<b>".toList (pyStrip raw) ∧
    hasSub "<b>".toList t = true ∧
    hasSub "**".toList t = false ∧
    hasSub "</b>".toList t = false := by
  have e1 : "**".toList = ['*', '*'] := rfl
  have e2 : "<b>".toList = ['<', 'b', '>'] := rfl
  have e3 : "</b>".toList = ['<', '/', 'b', '>'] := rfl
  rw [e1] at hstars
  rw [e3] at hnoclose
  rw [e1, e2, e3]
  have hid := replaceSS_id ['<', '/', 'b', '>'] _ (replaceSS_no_star2 (pyStrip raw))
  have ht : t = replaceStarStar ['<', 'b', '>'] (pyStrip raw) := by
    simp only [processLine] at hbody
    rw [e1, e2, e3] at hbody
    split_ifs at hbody
    rw [hid] at hbody
    injection hbody with hbody
    exact hbody.symm
  subst ht
  exact ⟨rfl, hid, replaceSS_has_open _ hstars, replaceSS_no_star2 _,
    replaceSS_no_close _ hnoclose⟩

/-- C8 witness: a concrete body line with bold markers. -/
theorem processLine_bold_never_closed_witness :
    "Make <b>bold<b> text".toList =
      replaceStarStar "<b>".toList (pyStrip "Make **bold** text".toList) ∧
    replaceStarStar "</b>".toList
        (replaceStarStar "<b>".toList (pyStrip "Make **bold** text".toList)) =
      replaceStarStar "<b>".toList (pyStrip "Make **bold** text".toList) ∧
    hasSub "<b>".toList "Make <b>bold<b> text".toList = true ∧
    hasSub "**".toList "Make <b>bold<b> text".toList = false ∧
    hasSub "</b>".toList "Make <b>bold<b> text".toList = false :=
  processLine_bold_never_closed "Make **bold** text".toList
    "Make <b>bold<b> text".toList (by decide) (by decide) (by decide)
/-- A vector's dot product with itself is nonnegative. -/
theorem dot_self_nonneg : ∀ v : List ℚ, 0 ≤ dot v v
  | [] => le_refl 0
  | x :: xs => by
    show 0 ≤ x * x + dot xs xs
    have h := dot_self_nonneg xs
    nlinarith [mul_self_nonneg x]

/-- The cached squared magnitude is nonnegative. -/
theorem vecNormSq_nonneg (v : List ℚ) : 0 ≤ vecNormSq v := dot_self_nonneg v

/-- `x ↦ x * |x|` is strictly monotone on `ℝ`: it orders exactly as the
identity, which is why `hitKey` orders exactly as the cosine score. -/
theorem strictMono_mul_abs : StrictMono fun x : ℝ => x * |x| := by
  intro a b hab
  show a * |a| < b * |b|
  rcases le_or_lt 0 a with ha | ha
  · rw [abs_of_nonneg ha, abs_of_nonneg (le_trans ha hab.le)]
    exact mul_self_lt_mul_self ha hab
  · rcases le_or_lt 0 b with hb | hb
    · rw [abs_of_neg ha, abs_of_nonneg hb]
      nlinarith
    · rw [abs_of_neg ha, abs_of_neg hb]
      nlinarith

/-- The rational surrogate key of a hit is exactly `score * |score|`, cast
to `ℝ` — for any nonnegative cached squared magnitudes (division by zero
agreeing on both sides). -/
theorem hitKey_cast (h : SearchHit) (hnv : 0 ≤ h.nv) (hnq : 0 ≤ h.nq) :
    (hitKey h : ℝ) = h.score * |h.score| := by
  have hnv' : (0 : ℝ) ≤ (h.nv : ℝ) := by exact_mod_cast hnv
  have hnq' : (0 : ℝ) ≤ (h.nq : ℝ) := by exact_mod_cast hnq
  unfold hitKey SearchHit.score
  push_cast
  rw [abs_div, abs_of_nonneg (mul_nonneg (Real.sqrt_nonneg _) (Real.sqrt_nonneg _)),
    div_mul_div_comm, mul_mul_mul_comm, Real.mul_self_sqrt hnv',
    Real.mul_self_sqrt hnq']

/-- Surrogate keys compare strictly exactly as cosine scores. -/
theorem hitKey_lt_iff (a b : SearchHit) (hanv : 0 ≤ a.nv) (hanq : 0 ≤ a.nq)
    (hbnv : 0 ≤ b.nv) (hbnq : 0 ≤ b.nq) :
    hitKey a < hitKey b ↔ a.score < b.score := by
  rw [← @Rat.cast_lt (hitKey a) (hitKey b) ℝ _, hitKey_cast a hanv hanq,
    hitKey_cast b hbnv hbnq]
  exact strictMono_mul_abs.lt_iff_lt

/-- Surrogate keys coincide exactly when cosine scores do. -/
theorem hitKey_eq_iff (a b : SearchHit) (hanv : 0 ≤ a.nv) (hanq : 0 ≤ a.nq)
    (hbnv : 0 ≤ b.nv) (hbnq : 0 ≤ b.nq) :
    hitKey a = hitKey b ↔ a.score = b.score := by
  rw [← @Rat.cast_inj ℝ _ _ (hitKey a) (hitKey b), hitKey_cast a hanv hanq,
    hitKey_cast b hbnv hbnq]
  exact strictMono_mul_abs.injective.eq_iff

/-- The decidable sort order implies the spec's score order, on hits with
nonnegative cached squared magnitudes. -/
theorem hitLE_imp_scoreOrder (a b : SearchHit) (hanv : 0 ≤ a.nv)
    (hanq : 0 ≤ a.nq) (hbnv : 0 ≤ b.nv) (hbnq : 0 ≤ b.nq) :
    hitLE a b → scoreOrder a b := by
  intro h
  rcases h with h | ⟨h, hid⟩
  · exact .inl ((hitKey_lt_iff b a hbnv hbnq hanv hanq).mp h)
  · exact .inr ⟨(hitKey_eq_iff a b hanv hanq hbnv hbnq).mp h, hid⟩

/-- Every entry of a built index caches exactly the squared magnitude of its
vector. -/
theorem build_entries_normSq (pairs : List (Chunk × List ℚ))
    (idx : VectorIndex) (hb : VectorIndex.build pairs = .ok idx) :
    ∀ e ∈ idx.entries, e.normSq = vecNormSq e.vec := by
  match pairs with
  | [] => exact absurd hb (by simp [VectorIndex.build])
  | (c, v₀) :: rest =>
    by_cases h : (((c, v₀) :: rest).all fun p => p.2.length == v₀.length) = true
    · have hbuild : VectorIndex.build ((c, v₀) :: rest) =
          .ok ⟨((c, v₀) :: rest).map fun p => ⟨p.1, p.2, vecNormSq p.2⟩,
            v₀.length⟩ := by
        simp [VectorIndex.build, h]
      rw [hbuild] at hb
      injection hb with hb
      subst hb
      intro e he
      obtain ⟨p, _, rfl⟩ := List.mem_map.mp he
      rfl
    · exact absurd hb (by simp [VectorIndex.build, h])

/-- C3: on every built index, `search` with `k > 0` returns exactly
`min k (index size)` hits, sorted by strictly descending cosine score with
ties broken by ascending chunk id; and with `k ≥ index size` every indexed
chunk is returned (the returned chunks are a permutation of the index's). -/
theorem search_topk_sorted (pairs : List (Chunk × List ℚ)) (idx : VectorIndex)
    (hbuild : VectorIndex.build pairs = .ok idx) (q : List ℚ) (k : Nat)
    (_hk : 0 < k) :
    (idx.search q k).length = min k idx.entries.length ∧
    List.Sorted scoreOrder (idx.search q k) ∧
    (idx.entries.length ≤ k →
      List.Perm ((idx.search q k).map SearchHit.chunk)
        (idx.entries.map IndexEntry.chunk)) := by
  have hperm := List.perm_insertionSort hitLE
    (idx.entries.map fun e => SearchHit.mk e.chunk (dot q e.vec) e.normSq
      (vecNormSq q))
  have hsorted := List.sorted_insertionSort hitLE
    (idx.entries.map fun e => SearchHit.mk e.chunk (dot q e.vec) e.normSq
      (vecNormSq q))
  have hdef : idx.search q k = (List.insertionSort hitLE
      (idx.entries.map fun e => SearchHit.mk e.chunk (dot q e.vec) e.normSq
        (vecNormSq q))).take k := rfl
  have hmem : ∀ x ∈ (List.insertionSort hitLE
      (idx.entries.map fun e => SearchHit.mk e.chunk (dot q e.vec) e.normSq
        (vecNormSq q))).take k, 0 ≤ x.nv ∧ 0 ≤ x.nq := by
    intro x hx
    have hx2 := hperm.mem_iff.mp (List.mem_of_mem_take hx)
    obtain ⟨e, he, rfl⟩ := List.mem_map.mp hx2
    refine ⟨?_, vecNormSq_nonneg q⟩
    show 0 ≤ e.normSq
    rw [build_entries_normSq pairs idx hbuild e he]
    exact vecNormSq_nonneg e.vec
  refine ⟨?_, ?_, ?_⟩
  · rw [hdef, List.length_take, hperm.length_eq, List.length_map]
  · rw [hdef]
    refine List.Pairwise.imp_of_mem ?_
      (List.Pairwise.sublist (List.take_sublist k _) hsorted)
    intro a b ha hb hab
    have hA := hmem a ha
    have hB := hmem b hb
    exact hitLE_imp_scoreOrder a b hA.1 hA.2 hB.1 hB.2 hab
  · intro hlen
    rw [hdef, List.take_of_length_le
      (by rw [hperm.length_eq, List.length_map]; exact hlen)]
    have h1 := List.Perm.map SearchHit.chunk hperm
    have h2 : ((idx.entries.map fun e => SearchHit.mk e.chunk (dot q e.vec)
        e.normSq (vecNormSq q)).map SearchHit.chunk) =
        idx.entries.map IndexEntry.chunk := by
      rw [List.map_map]
      rfl
    rw [h2] at h1
    exact h1

/-- C3 witness: the concretely built three-entry index, queried with
`k = 2`. -/
theorem search_topk_sorted_witness :
    (searchWitnessIndex.search [1, 0] 2).length =
      min 2 searchWitnessIndex.entries.length ∧
    List.Sorted scoreOrder (searchWitnessIndex.search [1, 0] 2) ∧
    (searchWitnessIndex.entries.length ≤ 2 →
      List.Perm ((searchWitnessIndex.search [1, 0] 2).map SearchHit.chunk)
        (searchWitnessIndex.entries.map IndexEntry.chunk)) :=
  search_topk_sorted searchWitnessPairs searchWitnessIndex
    (by simp [searchWitnessPairs, searchWitnessIndex, VectorIndex.build,
      vecNormSq, dot])
    [1, 0] 2 (by decide)

end Biplan
